import Mathlib

/-!
Verification of the token & second-factor authentication manager of the
NethServer `ns-api-server` repository.

The Go sources are shallowly embedded:
* file contents are `List Char`; the Go string primitives used by the code
  (`strings.Contains`, `strings.Replace(s, old, "", 1)`, `strings.TrimSpace`)
  are translated as executable Lean functions;
* the filesystem state touched by the 2FA methods (one secret file and one
  status file per identity under the secrets root, one token-list file per
  identity under the tokens root) is a record of three finite-support maps;
  file writes are modelled as succeeding (a fault-free filesystem), and
  `os.Remove` fails exactly when the file is absent;
* every operation (`CheckTokenValidation`, `SetTokenValidation`,
  `RemoveTokenValidation`, `GetUserSecret`, `SetUserSecret`, `Del2FAStatus`,
  the `OTPVerify` post-check update, `ValidateAuth`, and the middleware's
  `Authorizator`, `LoginResponse`, `Authenticator`) is translated directly
  from the corresponding Go function.
-/

namespace NsApiServer

/-- File contents and tokens are modelled as lists of characters. -/
abbrev Str := List Char

/-- Go `unicode.IsSpace`: the Unicode white-space code points
(Latin-1 `\t \n \v \f \r space 0x85 0xA0` plus the White_Space property
code points above Latin-1). -/
def isGoSpace (c : Char) : Bool :=
  let n := c.toNat
  n == 9 || n == 10 || n == 11 || n == 12 || n == 13 || n == 32 ||
  n == 0x85 || n == 0xA0 || n == 0x1680 ||
  (decide (0x2000 ≤ n) && decide (n ≤ 0x200A)) ||
  n == 0x2028 || n == 0x2029 || n == 0x202F || n == 0x205F || n == 0x3000

/-- Go `strings.Contains s pat`: `pat` occurs as a contiguous substring of
`s` (always true for the empty pattern, as in Go). -/
def goContains : Str → Str → Bool
  | [], pat => pat.isEmpty
  | c :: rest, pat => pat.isPrefixOf (c :: rest) || goContains rest pat

/-- Go `strings.Replace s old "" 1`: delete the first (leftmost) occurrence
of `old` from `s`; `s` is returned unchanged when `old` does not occur
(and when `old` is empty, as in Go, where the empty match at position 0 is
replaced by the empty replacement). -/
def goReplaceFirst : Str → Str → Str
  | [], _ => []
  | c :: rest, old =>
      if old.isPrefixOf (c :: rest) then (c :: rest).drop old.length
      else c :: goReplaceFirst rest old

/-- Go `strings.TrimSpace`: drop white-space characters from both ends. -/
def goTrimSpace (s : Str) : Str :=
  ((s.dropWhile isGoSpace).reverse.dropWhile isGoSpace).reverse

/-- The entries ("whole tokens") of a token-list file: the file is a sequence
of lines, one token per line (`SetTokenValidation` appends `token + "\n"`);
the entries are the non-empty lines. `splitNl` splits on the newline
character exactly as Go `strings.Split(s, "\n")` does. -/
def splitNl : Str → List Str
  | [] => [[]]
  | c :: rest =>
      if c = '\n' then [] :: splitNl rest
      else
        match splitNl rest with
        | [] => [[c]]
        | g :: gs => (c :: g) :: gs

/-- The tokens stored "as whole entries" in a token-list file. -/
def goEntries (s : Str) : List Str :=
  (splitNl s).filter (fun e => !e.isEmpty)

/-- The persisted state of the server: per-identity secret file, status
file (both under the secrets root) and token-list file (under the tokens
root). `none` means the file is absent. -/
structure ServerState where
  secrets  : String → Option Str
  statuses : String → Option Str
  tokens   : String → Option Str

/-- Point update of one identity's file. -/
def updateMap (f : String → Option Str) (k : String) (v : Option Str) :
    String → Option Str :=
  fun x => if x = k then v else f x

/-- The state with no files at all (fresh install). -/
def st0 : ServerState :=
  { secrets := fun _ => none, statuses := fun _ => none, tokens := fun _ => none }

/-- Go `CheckTokenValidation` (methods, lines 330-340): read the identity's
token file and test `strings.Contains(fileContents, token)`; a read error
(absent file) yields false. -/
def CheckTokenValidation (st : ServerState) (username : String) (token : Str) :
    Bool :=
  match st.tokens username with
  | none => false
  | some content => goContains content token

/-- Go `SetTokenValidation` (methods, lines 342-356): open the identity's
token file with `O_APPEND|O_CREATE` and append `token + "\n"`; returns
whether the write succeeded (always, in the fault-free model). -/
def SetTokenValidation (st : ServerState) (username : String) (token : Str) :
    ServerState × Bool :=
  ({ st with
      tokens := updateMap st.tokens username
        (some (((st.tokens username).getD []) ++ token ++ ['\n'])) },
   true)

/-- Go `RemoveTokenValidation` (methods, lines 358-383): read the file
(absent ⇒ failure), delete the first substring occurrence of `token`
(`strings.Replace(content, token, "", 1)`), then rewrite the file with
`strings.TrimSpace(result) + "\n"`. -/
def RemoveTokenValidation (st : ServerState) (username : String) (token : Str) :
    ServerState × Bool :=
  match st.tokens username with
  | none => (st, false)
  | some content =>
      ({ st with
          tokens := updateMap st.tokens username
            (some (goTrimSpace (goReplaceFirst content token) ++ ['\n'])) },
       true)

/-- Go `GetUserSecret` (methods, lines 288-299): read the identity's secret
file; a read error (absent file) yields the empty string. -/
def GetUserSecret (st : ServerState) (username : String) : Str :=
  (st.secrets username).getD []

/-- Go `SetUserSecret` (methods, lines 301-328): if the secret file is
absent or empty, write the given secret and return it; otherwise return
the already-stored secret unchanged. -/
def SetUserSecret (st : ServerState) (username : String) (secret : Str) :
    ServerState × Bool × Str :=
  let prior := (st.secrets username).getD []
  if prior.isEmpty then
    ({ st with secrets := updateMap st.secrets username (some secret) },
     true, secret)
  else
    (st, true, prior)

/-- Go `Del2FAStatus` (methods, lines 248-286): `os.Remove` the secret file
(fails when it is absent, in which case the handler returns an error and
the state is untouched); on success, truncate the status file and write
`"0"`. -/
def Del2FAStatus (st : ServerState) (username : String) : ServerState × Bool :=
  match st.secrets username with
  | none => (st, false)
  | some _ =>
      ({ st with
          secrets := updateMap st.secrets username none,
          statuses := updateMap st.statuses username (some ['0']) },
       true)

/-- Go `Get2FAStatus` (methods, lines 225-246), the `Data` field of the
response: true exactly when the status file is readable and its trimmed
contents equal `"1"`. -/
def Get2FAStatusData (st : ServerState) (username : String) : Bool :=
  match st.statuses username with
  | none => false
  | some content => goTrimSpace content == ['1']

/-- Go `OTPVerify` (methods, lines 111-167), the state update performed
after the JWT check, the secret lookup and the OTP check have all
succeeded: read the status file (absent ⇒ empty string), and if the
trimmed status is `"0"` or empty, truncate the token file
(`O_TRUNC` + write `""`); then `SetTokenValidation(username, token)`;
finally truncate the status file and write `"1"`. -/
def otpVerifySuccessUpdate (st : ServerState) (username : String) (token : Str) :
    ServerState :=
  let statusOld := goTrimSpace ((st.statuses username).getD [])
  let st1 :=
    if statusOld = ['0'] ∨ statusOld = [] then
      { st with tokens := updateMap st.tokens username (some []) }
    else st
  let st2 := (SetTokenValidation st1 username token).1
  { st2 with statuses := updateMap st2.statuses username (some ['1']) }

/-- The signing algorithm declared in a JWT header. The src keyfunc only
accepts the symmetric HMAC family (`jwtl.SigningMethodHMAC`, covering
HS256/HS384/HS512); `noneAlg` is the "none" algorithm and `otherAlg`
any further algorithm (RSA, ECDSA, ...). -/
inductive SigningAlg
  | hmacAlg : SigningAlg
  | noneAlg : SigningAlg
  | otherAlg : String → SigningAlg
deriving DecidableEq

/-- A token string as seen through `jwtl.Parse`: its raw characters, the
algorithm its header declares, the claims it carries (`id` possibly
absent, the `2fa` boolean), and whether the library's own checks
(signature under the server key and expiry) succeed. -/
structure JWTTokenModel where
  raw : Str
  alg : SigningAlg
  claimId : Option String
  claim2fa : Bool
  valid : Bool
deriving DecidableEq

/-- The keyfunc inside Go `ValidateAuth` (methods, lines 388-396): it
returns the server key only for `*jwtl.SigningMethodHMAC` and an error
for every other method; a keyfunc error makes `jwtl.Parse` fail. -/
def keyfuncOk : SigningAlg → Bool
  | SigningAlg.hmacAlg => true
  | _ => false

/-- Go `ValidateAuth` (methods, lines 385-421): an empty token string is
rejected; `jwtl.Parse` fails (⇒ false) when the keyfunc rejects the
algorithm or the library's signature/expiry check fails; then the claims
must carry a non-nil `id`; finally, when `ensureTokenExists` is set, the
raw token must pass `CheckTokenValidation` for that identity. -/
def ValidateAuth (st : ServerState) (tok : JWTTokenModel)
    (ensureTokenExists : Bool) : Bool :=
  if tok.raw ≠ [] then
    if keyfuncOk tok.alg = false then false
    else if tok.valid = false then false
    else
      match tok.claimId with
      | some username =>
          if ensureTokenExists then
            if CheckTokenValidation st username tok.raw = false then false
            else true
          else true
      | none => false
  else false

/-- The claims map the middleware extracts from a verified token:
`id` (the identity) and the `2fa` boolean. -/
structure MapClaims where
  id : String
  twofa : Bool
deriving DecidableEq

/-- Go `Authorizator` (middleware, lines 539-594): for every protected
request it runs `CheckTokenValidation(claims["id"], token.Raw)` and
rejects on failure; otherwise (after redacting and logging the body) it
authorizes. The `2fa` claim is not consulted here. -/
def Authorizator (st : ServerState) (claims : MapClaims) (tokenRaw : Str) :
    Bool :=
  if CheckTokenValidation st claims.id tokenRaw = false then false
  else true

/-- Go `LoginResponse` (middleware, lines 595-610): on login success, the
issued token is admitted to the allow-list only when its `2fa` claim is
false. -/
def LoginResponse (st : ServerState) (claims : MapClaims) (token : Str) :
    ServerState :=
  if claims.twofa = false then (SetTokenValidation st claims.id token).1
  else st

/-- Go `CheckAuthentication` (methods, lines 52-56): the body is a single
`return nil` — every (username, password) pair passes. `none` is the nil
error. -/
def CheckAuthentication (_username _password : String) : Option String :=
  none

/-- The login credentials bound from the request body. -/
structure LoginVals where
  username : String
  password : String
deriving DecidableEq

/-- Outcome of the middleware's `Authenticator` callback. -/
inductive AuthResult
  | missingLoginValues : AuthResult
  | failedAuthentication : AuthResult
  | ok : String → AuthResult
deriving DecidableEq

/-- Go `Authenticator` (middleware, lines 477-506): if binding the login
payload fails, `ErrMissingLoginValues`; otherwise `CheckAuthentication`;
on its error, `ErrFailedAuthentication`; else the user object (whose
username flows into the issued token's claims). -/
def Authenticator (bound : Option LoginVals) : AuthResult :=
  match bound with
  | none => AuthResult.missingLoginValues
  | some l =>
      match CheckAuthentication l.username l.password with
      | some _ => AuthResult.failedAuthentication
      | none => AuthResult.ok l.username

/-- Modelled from the spec: the TOTP counters tried by
`dgoogauth.Authenticate` — the library itself is an external dependency,
not under src; spec §4.2 describes the verifier as computing "the TOTP
value for the current time step and up to `windowSize` steps
before/after (clock-drift tolerance), using a 30-second step". The
counters form the window `[t0 - windowSize, t0 + windowSize]`. -/
def totpCounters (windowSize : Nat) (t0 : Int) : List Int :=
  (List.range (2 * windowSize + 1)).map
    (fun (i : Nat) => t0 - (windowSize : Int) + (i : Int))

/-- Modelled from the spec: `dgoogauth.Authenticate` for a TOTP
configuration (`HotpCounter = 0`, as `OTPVerify` sets at methods lines
93-98): the current counter is `now / 30` and the submitted code is
accepted iff it equals the code of some counter in the window. `codeAt`
abstracts the RFC 6238/4226 HMAC-SHA1 6-digit code of one counter for
the fixed secret. -/
def otpAuthenticate (codeAt : Int → Nat) (windowSize : Nat) (now : Nat)
    (code : Nat) : Bool :=
  (totpCounters windowSize ((now / 30 : Nat) : Int)).any
    (fun t => codeAt t == code)

/-- The code an authenticator app generates at Unix timestamp `ts`
(counter `ts / 30`, as in RFC 6238 with a 30-second step). -/
def codeAtTime (codeAt : Int → Nat) (ts : Nat) : Nat :=
  codeAt ((ts / 30 : Nat) : Int)

/-! ### Basic lemmas about the embedded Go string primitives -/

theorem updateMap_same (f : String → Option Str) (k : String) (v : Option Str) :
    updateMap f k v k = v := by
  simp [updateMap]

theorem updateMap_other (f : String → Option Str) (k : String) (v : Option Str)
    (x : String) (h : x ≠ k) : updateMap f k v x = f x := by
  simp [updateMap, h]

theorem goContains_iff (s pat : Str) : goContains s pat = true ↔ pat <:+: s := by
  induction s with
  | nil =>
      simp only [goContains, List.isEmpty_iff, List.infix_nil]
  | cons c rest ih =>
      simp only [goContains, Bool.or_eq_true, ih, List.isPrefixOf_iff_prefix,
        List.infix_cons_iff]

theorem goReplaceFirst_eq_drop (c : Char) (rest old : Str)
    (h : old.isPrefixOf (c :: rest) = true) :
    goReplaceFirst (c :: rest) old = (c :: rest).drop old.length := by
  simp [goReplaceFirst, h]

theorem goReplaceFirst_cons_of_neg (c : Char) (rest old : Str)
    (h : old.isPrefixOf (c :: rest) = false) :
    goReplaceFirst (c :: rest) old = c :: goReplaceFirst rest old := by
  simp [goReplaceFirst, h]

theorem midOccDrop (old A z : Str) (h : old.length ≤ A.length) :
    old <:+: (A ++ (old ++ z)).drop old.length := by
  rw [List.drop_append_eq_append_drop, Nat.sub_eq_zero_of_le h, List.drop_zero]
  exact List.infix_append' _ _ _

/-- Deleting the first occurrence of `old` from a string that holds two
disjoint occurrences leaves the later occurrence intact. -/
theorem goReplaceFirst_keeps_second (old y z : Str) :
    ∀ x : Str, old <:+: goReplaceFirst (x ++ (old ++ (y ++ (old ++ z)))) old := by
  intro x
  induction x with
  | nil =>
      rw [List.nil_append]
      cases hs : old ++ (y ++ (old ++ z)) with
      | nil =>
          rcases List.append_eq_nil.mp hs with ⟨h1, _⟩
          subst h1
          simp [goReplaceFirst]
      | cons c rest =>
          have hpre : old.isPrefixOf (c :: rest) = true := by
            rw [ List.isPrefixOf_iff_prefix, ← hs]
            exact List.prefix_append old _
          rw [goReplaceFirst_eq_drop c rest old hpre, ← hs]
          have hgroup : old ++ (y ++ (old ++ z)) = (old ++ y) ++ (old ++ z) := by
            simp [List.append_assoc]
          rw [hgroup]
          exact midOccDrop old (old ++ y) z
            (by simp only [List.length_append]; omega)
  | cons cx x' ih =>
      rw [List.cons_append]
      by_cases hp : old.isPrefixOf (cx :: (x' ++ (old ++ (y ++ (old ++ z))))) = true
      · rw [goReplaceFirst_eq_drop _ _ _ hp]
        have hgroup : cx :: (x' ++ (old ++ (y ++ (old ++ z)))) =
            ((cx :: x') ++ old ++ y) ++ (old ++ z) := by
          simp [List.append_assoc]
        rw [hgroup]
        exact midOccDrop old ((cx :: x') ++ old ++ y) z
          (by simp only [List.length_append, List.length_cons]; omega)
      · rw [goReplaceFirst_cons_of_neg _ _ _ (Bool.eq_false_iff.mpr hp)]
        exact List.infix_cons ih

/-- `dropWhile` cannot eat into an occurrence of a pattern none of whose
characters satisfies the predicate. -/
theorem dropWhileKeepsOcc (p : Char → Bool) (old : Str)
    (hne : old ≠ []) (hclean : ∀ c ∈ old, p c = false) :
    ∀ a b : Str, old <:+: (a ++ (old ++ b)).dropWhile p := by
  intro a
  induction a with
  | nil =>
      intro b
      cases old with
      | nil => exact absurd rfl hne
      | cons oc old' =>
          rw [List.nil_append, List.cons_append, List.dropWhile_cons]
          have hoc : p oc = false := hclean oc (List.mem_cons_self oc old')
          rw [hoc]
          simp only [Bool.false_eq_true, if_false]
          exact (List.prefix_append (oc :: old') b).isInfix
  | cons ca a' ih =>
      intro b
      rw [List.cons_append, List.dropWhile_cons]
      by_cases hpa : p ca = true
      · rw [hpa]
        simp only [if_true]
        exact ih b
      · rw [Bool.not_eq_true] at hpa
        rw [hpa]
        simp only [Bool.false_eq_true, if_false]
        exact ⟨ca :: a', b, by simp⟩

/-- `strings.TrimSpace` preserves any occurrence of a non-empty pattern
that contains no white space. -/
theorem goTrimSpaceKeepsOcc (old s : Str) (hne : old ≠ [])
    (hclean : ∀ c ∈ old, isGoSpace c = false) (h : old <:+: s) :
    old <:+: goTrimSpace s := by
  obtain ⟨a, b, rfl⟩ := h
  have h1 : old <:+: (a ++ old ++ b).dropWhile isGoSpace := by
    rw [List.append_assoc]
    exact dropWhileKeepsOcc isGoSpace old hne hclean a b
  have h2 := h1.reverse
  obtain ⟨a2, b2, hab⟩ := h2
  have h3 : old.reverse <:+:
      (((a ++ old ++ b).dropWhile isGoSpace).reverse.dropWhile isGoSpace) := by
    rw [← hab, List.append_assoc]
    refine dropWhileKeepsOcc isGoSpace old.reverse ?_ ?_ a2 b2
    · simpa using hne
    · intro c hc
      exact hclean c (List.mem_reverse.mp hc)
  have h4 := h3.reverse
  rw [List.reverse_reverse] at h4
  exact h4

theorem splitNl_ne_nil (s : Str) : splitNl s ≠ [] := by
  induction s with
  | nil => simp [splitNl]
  | cons c rest ih =>
      rw [splitNl]
      by_cases h : c = '\n'
      · simp [h]
      · rw [if_neg h]
        cases hr : splitNl rest with
        | nil => simp
        | cons g gs => simp

/-- The head group of a newline split is a prefix of the string. -/
theorem splitNl_head_pre (s : Str) :
    match splitNl s with
    | g :: _ => g <+: s
    | [] => False := by
  induction s with
  | nil => simp [splitNl]
  | cons c rest ih =>
      rw [splitNl]
      by_cases h : c = '\n'
      · simp [h, List.nil_prefix]
      · rw [if_neg h]
        cases hr : splitNl rest with
        | nil => exact absurd hr (splitNl_ne_nil rest)
        | cons g0 gs =>
            rw [hr] at ih
            simp only
            exact List.cons_prefix_cons.mpr ⟨rfl, ih⟩

/-- Every group produced by splitting on newlines is an infix of the
original string. -/
theorem splitNl_mem_inf (s : Str) : ∀ g ∈ splitNl s, g <:+: s := by
  induction s with
  | nil =>
      intro g hg
      simp only [splitNl, List.mem_singleton] at hg
      subst hg
      exact List.nil_infix
  | cons c rest ih =>
      intro g hg
      rw [splitNl] at hg
      by_cases h : c = '\n'
      · rw [if_pos h] at hg
        rcases List.mem_cons.mp hg with h1 | h1
        · subst h1; exact List.nil_infix
        · exact List.infix_cons (ih g h1)
      · rw [if_neg h] at hg
        cases hr : splitNl rest with
        | nil => exact absurd hr (splitNl_ne_nil rest)
        | cons g0 gs =>
            rw [hr] at hg
            rcases List.mem_cons.mp hg with h1 | h1
            · subst h1
              have hg0 : g0 <+: rest := by
                have := splitNl_head_pre rest
                rw [hr] at this
                exact this
              obtain ⟨t, ht⟩ := hg0
              exact ⟨[], t, by simp [← ht]⟩
            · exact List.infix_cons (ih g (hr ▸ List.mem_cons_of_mem g0 h1))

theorem splitNl_append_newline (tok : Str) (h : ('\n') ∉ tok) :
    splitNl (tok ++ ['\n']) = [tok, []] := by
  induction tok with
  | nil => simp [splitNl]
  | cons c rest ih =>
      have hc : ¬ (c = '\n') := fun hcc => h (hcc ▸ List.mem_cons_self c rest)
      rw [List.cons_append, splitNl, if_neg hc,
        ih (fun hm => h (List.mem_cons_of_mem c hm))]

/-- After `SetTokenValidation(u, t)` the stored file is
`prior ++ t ++ "\n"`, of which `t` is a substring, so
`CheckTokenValidation(u, t)` succeeds. -/
theorem check_after_set (st : ServerState) (u : String) (t : Str) :
    CheckTokenValidation (SetTokenValidation st u t).1 u t = true := by
  simp only [SetTokenValidation, CheckTokenValidation, updateMap_same]
  rw [goContains_iff]
  exact ⟨(st.tokens u).getD [], ['\n'], rfl⟩

/-! ### The claims -/

/-- C10: `CheckAuthentication` is a stub whose body is `return nil`, so
every (username, password) pair passes the primary-factor check, and the
`Authenticator` callback succeeds for every bound login payload — the
issued signed token can only be denied later by the allow-list gating. -/
theorem C10_check_authentication_always_ok :
    (∀ u p : String, CheckAuthentication u p = none) ∧
    (∀ l : LoginVals, Authenticator (some l) = AuthResult.ok l.username) :=
  ⟨fun _ _ => rfl, fun _ => rfl⟩

/-- C8: a token whose header declares signing algorithm "none" or any
algorithm outside the symmetric HMAC family makes the keyfunc inside
`ValidateAuth` return an error, which fails the parse, so `ValidateAuth`
returns false regardless of the claims the token carries. -/
theorem C8_reject_bad_alg (st : ServerState) (tok : JWTTokenModel)
    (ensure : Bool) (halg : keyfuncOk tok.alg = false) :
    ValidateAuth st tok ensure = false := by
  simp [ValidateAuth, halg]

/-- Witness for C8: a well-signed, unexpired token with algorithm "none"
and a present identity claim is still rejected. -/
theorem C8_witness :
    ValidateAuth st0
      (JWTTokenModel.mk ['x'] SigningAlg.noneAlg (some "alice") true true)
      true = false :=
  C8_reject_bad_alg st0
    (JWTTokenModel.mk ['x'] SigningAlg.noneAlg (some "alice") true true)
    true (by decide)

/-- C6: `Del2FAStatus` is atomic from the caller's perspective: when
deleting the secret file fails (it is absent), the whole call fails and
the state — in particular the status flag — is untouched; when deletion
succeeds, the status flag is rewritten to "0", after which
`GetUserSecret` returns the empty (absent) secret and `Get2FAStatus`
reports the identity as disabled. -/
theorem C6_del_2fa_atomic (st : ServerState) (u : String) :
    (st.secrets u = none → Del2FAStatus st u = (st, false)) ∧
    (∀ s, st.secrets u = some s →
      (Del2FAStatus st u).2 = true ∧
      (Del2FAStatus st u).1.secrets u = none ∧
      (Del2FAStatus st u).1.statuses u = some ['0'] ∧
      GetUserSecret (Del2FAStatus st u).1 u = [] ∧
      Get2FAStatusData (Del2FAStatus st u).1 u = false) := by
  constructor
  · intro h
    simp [Del2FAStatus, h]
  · intro s h
    have hzero : (goTrimSpace ['0'] == ['1']) = false := by decide
    simp [Del2FAStatus, h, GetUserSecret, Get2FAStatusData, updateMap_same,
      hzero]

/-- Witness state for C6: "alice" has a provisioned secret. -/
def stC6 : ServerState :=
  { st0 with secrets := updateMap st0.secrets "alice" (some ['s']) }

/-- Witness for C6: both branches of the atomicity theorem at concrete
states — an absent secret leaves the state untouched; a present secret is
deleted and the flag cleared. -/
theorem C6_witness :
    Del2FAStatus st0 "bob" = (st0, false) ∧
    ((Del2FAStatus stC6 "alice").2 = true ∧
     (Del2FAStatus stC6 "alice").1.secrets "alice" = none ∧
     (Del2FAStatus stC6 "alice").1.statuses "alice" = some ['0'] ∧
     GetUserSecret (Del2FAStatus stC6 "alice").1 "alice" = [] ∧
     Get2FAStatusData (Del2FAStatus stC6 "alice").1 "alice" = false) :=
  ⟨(C6_del_2fa_atomic st0 "bob").1 rfl,
   (C6_del_2fa_atomic stC6 "alice").2 ['s'] (by decide)⟩

/-- C5 counterexample: the claim quantifies over every pair of different
secret values, but when the first value is the empty string the stored
secret file is empty, the second call sees "no prior secret" again and
overwrites: it returns the second value, not the first. -/
theorem C5_counterexample :
    st0.secrets "alice" = none ∧
    ([] : Str) ≠ ['a'] ∧
    (SetUserSecret st0 "alice" []).2.1 = true ∧
    (SetUserSecret st0 "alice" []).2.2 = [] ∧
    (SetUserSecret (SetUserSecret st0 "alice" []).1 "alice" ['a']).2.1 = true ∧
    (SetUserSecret (SetUserSecret st0 "alice" []).1 "alice" ['a']).2.2 = ['a'] := by
  decide

/-- C5 (amended): for every identity whose stored secret is absent or
empty and every non-empty first secret value, two `SetUserSecret` calls
both succeed and both return the first value, the second call leaves the
stored secret unchanged — once a (non-empty) secret exists it is returned
unchanged and never overwritten. The original claim fails only for an
empty first secret value, which no caller produces (QRCode always passes
a base32 encoding of 20 random bytes). -/
theorem C5_set_user_secret_idempotent (st : ServerState) (u : String)
    (s1 s2 : Str) (hprior : (st.secrets u).getD [] = [])
    (hs1 : s1 ≠ []) :
    (SetUserSecret st u s1).2.1 = true ∧
    (SetUserSecret st u s1).2.2 = s1 ∧
    (SetUserSecret (SetUserSecret st u s1).1 u s2).2.1 = true ∧
    (SetUserSecret (SetUserSecret st u s1).1 u s2).2.2 = s1 ∧
    (SetUserSecret (SetUserSecret st u s1).1 u s2).1.secrets u = some s1 := by
  have h1 : ((st.secrets u).getD []).isEmpty = true := by
    rw [hprior]
    rfl
  have h2 : s1.isEmpty = false := by
    rw [Bool.eq_false_iff]
    intro hh
    exact hs1 (List.isEmpty_iff.mp hh)
  simp [SetUserSecret, h1, h2, updateMap_same]

/-- Witness for C5: concrete fresh identity and two different non-empty
secrets. -/
theorem C5_witness :
    (SetUserSecret st0 "alice" ['s']).2.2 = ['s'] ∧
    (SetUserSecret (SetUserSecret st0 "alice" ['s']).1 "alice" ['t']).2.2 = ['s'] :=
  ⟨(C5_set_user_secret_idempotent st0 "alice" ['s'] ['t'] (by decide)
      (by decide)).2.1,
   (C5_set_user_secret_idempotent st0 "alice" ['s'] ['t'] (by decide)
      (by decide)).2.2.2.1⟩

/-- C1 counterexample: with "xaby" the only stored whole entry of the
allow-list file, the string "ab" is not a whole entry, yet
`CheckTokenValidation` (which uses `strings.Contains`) accepts it — the
membership test is not exact. -/
theorem C1_counterexample :
    CheckTokenValidation ((SetTokenValidation st0 "alice" ['x','a','b','y']).1)
      "alice" ['a','b'] = true ∧
    ['a','b'] ∉ goEntries
      ((((SetTokenValidation st0 "alice" ['x','a','b','y']).1).tokens
        "alice").getD []) := by
  decide

/-- C1 (amended): `CheckTokenValidation` tests substring containment, not
whole-entry membership: it returns true iff the token occurs as a
contiguous substring of the identity's stored token file. Every whole
entry of the file is therefore accepted, but a token that is merely a
substring of a longer stored token is accepted as well. -/
theorem C1_check_token_validation_substring (st : ServerState) (u : String)
    (t : Str) :
    (CheckTokenValidation st u t = true ↔
      ∃ c, st.tokens u = some c ∧ t <:+: c) ∧
    (∀ c, st.tokens u = some c → ∀ e ∈ goEntries c,
      CheckTokenValidation st u e = true) := by
  constructor
  · unfold CheckTokenValidation
    cases h : st.tokens u with
    | none => simp
    | some c => simp [goContains_iff]
  · intro c hc e he
    unfold CheckTokenValidation
    rw [hc, goContains_iff]
    exact splitNl_mem_inf c e (List.mem_filter.mp he).1

/-- Witness state for C1: the single token "ab" admitted for "alice". -/
def stC1 : ServerState := (SetTokenValidation st0 "alice" ['a','b']).1

/-- Witness for C1: the whole entry "ab" of the stored file passes the
membership test. -/
theorem C1_witness :
    CheckTokenValidation stC1 "alice" ['a','b'] = true :=
  (C1_check_token_validation_substring stC1 "alice" ['a','b']).2
    (['a','b'] ++ ['\n']) (by decide) ['a','b'] (by decide)

/-- C2 counterexample: a request bearing a verified token whose claims
carry 2fa_required = false, but which is absent from the allow-list, is
rejected by the Authorization Gate — so the gate does consult the
allow-list even when no second factor is required. -/
theorem C2_counterexample :
    (MapClaims.mk "alice" false).twofa = false ∧
    Authorizator st0 (MapClaims.mk "alice" false) ['t'] = false := by
  decide

/-- C2 (amended): the `Authorizator` runs the allow-list membership check
on every request, whatever the 2fa claim says — its result is exactly
`CheckTokenValidation`; a token with 2fa_required = false nevertheless
passes the gate because `LoginResponse` admits exactly those tokens to
the allow-list at issuance. -/
theorem C2_allowlist_checked_always (st : ServerState) (claims : MapClaims)
    (tok : Str) :
    (Authorizator st claims tok = CheckTokenValidation st claims.id tok) ∧
    (claims.twofa = false →
      Authorizator (LoginResponse st claims tok) claims tok = true) := by
  constructor
  · unfold Authorizator
    cases h : CheckTokenValidation st claims.id tok <;> simp [h]
  · intro h2
    unfold LoginResponse
    rw [if_pos h2]
    unfold Authorizator
    rw [check_after_set st claims.id tok]
    simp

/-- Witness for C2: a freshly issued non-2FA token for "bob" passes the
gate. -/
theorem C2_witness :
    Authorizator (LoginResponse st0 (MapClaims.mk "bob" false) ['t'])
      (MapClaims.mk "bob" false) ['t'] = true :=
  (C2_allowlist_checked_always st0 (MapClaims.mk "bob" false) ['t']).2 rfl

/-- C3: when OTP verification succeeds for an identity whose 2FA status
file is absent, empty, or reads "0", `OTPVerify` truncates the token
allow-list file before admitting the presented token and then sets the
status flag to "1": afterwards the token file holds exactly the presented
token followed by a newline, so no other token — in particular no token
admitted before this first enablement — remains a whole entry of the
allow-list. (JWT token strings never contain a newline.) -/
theorem C3_first_enable_clears (st : ServerState) (u : String) (tok : Str)
    (hstat : goTrimSpace ((st.statuses u).getD []) = ['0'] ∨
             goTrimSpace ((st.statuses u).getD []) = [])
    (hnl : ('\n') ∉ tok) :
    (otpVerifySuccessUpdate st u tok).tokens u = some (tok ++ ['\n']) ∧
    (otpVerifySuccessUpdate st u tok).statuses u = some ['1'] ∧
    ∀ t2, t2 ≠ tok →
      t2 ∉ goEntries (((otpVerifySuccessUpdate st u tok).tokens u).getD []) := by
  have h1 : (otpVerifySuccessUpdate st u tok).tokens u = some (tok ++ ['\n']) := by
    simp only [otpVerifySuccessUpdate, SetTokenValidation]
    rw [if_pos hstat]
    simp [updateMap_same]
  refine ⟨h1, ?_, ?_⟩
  · simp only [otpVerifySuccessUpdate, SetTokenValidation]
    rw [if_pos hstat]
    simp [updateMap_same]
  · intro t2 ht2
    rw [h1]
    simp only [Option.getD_some, goEntries, splitNl_append_newline tok hnl]
    simp [List.mem_filter, ht2]

/-- Witness state for C3: "alice" has status "0" and an old token "old"
already admitted. -/
def stC3 : ServerState :=
  { st0 with
      statuses := updateMap st0.statuses "alice" (some ['0']),
      tokens := updateMap st0.tokens "alice" (some ['o','l','d','\n']) }

/-- Witness for C3: after first enablement with token "nw", the file holds
exactly "nw" and the previously admitted "old" is gone. -/
theorem C3_witness :
    (otpVerifySuccessUpdate stC3 "alice" ['n','w']).tokens "alice" =
      some (['n','w'] ++ ['\n']) ∧
    (otpVerifySuccessUpdate stC3 "alice" ['n','w']).statuses "alice" =
      some ['1'] ∧
    ['o','l','d'] ∉ goEntries
      (((otpVerifySuccessUpdate stC3 "alice" ['n','w']).tokens "alice").getD []) := by
  have h := C3_first_enable_clears stC3 "alice" ['n','w'] (by decide) (by decide)
  exact ⟨h.1, h.2.1, h.2.2 ['o','l','d'] (by decide)⟩

/-- State for the C4 counterexample and witness: "xaby" is the only live
token of "alice". -/
def stC4 : ServerState := (SetTokenValidation st0 "alice" ['x','a','b','y']).1

/-- C4 counterexample: with "xaby" the only live token, removing the
substring token "ab" deletes the characters "ab" out of the middle of
"xaby" (the file becomes "xy\n"): `RemoveTokenValidation` reports
success and the membership of the untouched live token "xaby" flips from
true to false — removing t1 does not leave Contains(id, t2) unchanged
when t1 is a substring of t2. -/
theorem C4_counterexample :
    CheckTokenValidation stC4 "alice" ['x','a','b','y'] = true ∧
    (RemoveTokenValidation stC4 "alice" ['a','b']).2 = true ∧
    CheckTokenValidation (RemoveTokenValidation stC4 "alice" ['a','b']).1
      "alice" ['x','a','b','y'] = false := by
  decide

/-- C4 (amended): `Add(id,t)` then `Contains(id,t)` holds for every state
and token. `Remove(id,t)` then `Contains(id,t) = false` holds when the
identity's file consists of exactly the single entry t (t non-empty and
white-space-free). In general `Remove` deletes only the first substring
occurrence of t, so when t occurs inside another stored token the removal
corrupts that token and changes its membership (see the counterexample),
and a second copy or an enclosing occurrence keeps `Contains(id,t)` true
after one `Remove`. -/
theorem C4_roundtrip (st : ServerState) (u : String) (t : Str) :
    CheckTokenValidation (SetTokenValidation st u t).1 u t = true ∧
    (st.tokens u = some (t ++ ['\n']) → t ≠ [] →
      (∀ c ∈ t, isGoSpace c = false) →
      CheckTokenValidation (RemoveTokenValidation st u t).1 u t = false) := by
  refine ⟨check_after_set st u t, ?_⟩
  intro hfile hne hclean
  simp only [RemoveTokenValidation, hfile, CheckTokenValidation, updateMap_same]
  have hrep : goReplaceFirst (t ++ ['\n']) t = ['\n'] := by
    cases t with
    | nil => exact absurd rfl hne
    | cons tc t' =>
        rw [List.cons_append, goReplaceFirst_eq_drop _ _ _ ?hpre]
        · rw [← List.cons_append]
          exact List.drop_left (tc :: t') ['\n']
        case hpre =>
          rw [ List.isPrefixOf_iff_prefix, ← List.cons_append]
          exact List.prefix_append (tc :: t') ['\n']
  rw [hrep]
  have htrim : goTrimSpace ['\n'] = [] := by decide
  rw [htrim, List.nil_append, Bool.eq_false_iff]
  intro hcon
  have hinf := (goContains_iff _ _).mp hcon
  cases t with
  | nil => exact hne rfl
  | cons tc t' =>
      have hmem : tc ∈ (['\n'] : Str) := hinf.subset (List.mem_cons_self tc t')
      have h1 : tc = '\n' := by simpa using hmem
      have h2 := hclean tc (List.mem_cons_self tc t')
      rw [h1] at h2
      exact absurd h2 (by decide)

/-- Witness for C4: both parts at the concrete state where "xaby" is the
only live token — adding it re-finds it, and removing it from the
single-entry file "xaby\n" makes the membership test fail. -/
theorem C4_witness :
    CheckTokenValidation (SetTokenValidation stC4 "alice" ['x','a','b','y']).1
      "alice" ['x','a','b','y'] = true ∧
    CheckTokenValidation (RemoveTokenValidation stC4 "alice" ['x','a','b','y']).1
      "alice" ['x','a','b','y'] = false :=
  ⟨(C4_roundtrip stC4 "alice" ['x','a','b','y']).1,
   (C4_roundtrip stC4 "alice" ['x','a','b','y']).2 (by decide) (by decide)
     (by decide)⟩

/-- C7 counterexample: adding the token "ab" twice and removing it once
leaves it a member: the file after the two appends is "ab\nab\n", the
removal deletes only the first occurrence and rewrites the file as
"ab\n", and the membership test still succeeds. -/
theorem C7_counterexample :
    CheckTokenValidation
      (RemoveTokenValidation
        ((SetTokenValidation ((SetTokenValidation st0 "alice" ['a','b']).1)
          "alice" ['a','b']).1)
        "alice" ['a','b']).1
      "alice" ['a','b'] = true := by
  decide

/-- C7 (amended): `SetTokenValidation` appends unconditionally, so adding
the same token twice stores two copies, and a single
`RemoveTokenValidation` — which deletes only the first substring
occurrence — leaves the token still a member: for every starting state,
identity, and non-empty white-space-free token, after Add, Add, Remove
the token still passes `CheckTokenValidation`. -/
theorem C7_double_add_single_remove (st : ServerState) (u : String) (t : Str)
    (hne : t ≠ []) (hclean : ∀ c ∈ t, isGoSpace c = false) :
    CheckTokenValidation
      (RemoveTokenValidation
        ((SetTokenValidation ((SetTokenValidation st u t).1) u t).1) u t).1
      u t = true := by
  simp only [SetTokenValidation, RemoveTokenValidation, CheckTokenValidation,
    updateMap_same, Option.getD_some]
  rw [goContains_iff]
  have hgroup :
      (((st.tokens u).getD [] ++ t ++ ['\n']) ++ t ++ ['\n']) =
        (st.tokens u).getD [] ++ (t ++ (['\n'] ++ (t ++ ['\n']))) := by
    simp [List.append_assoc]
  rw [hgroup]
  have hrep := goReplaceFirst_keeps_second t ['\n'] ['\n'] ((st.tokens u).getD [])
  have htrim := goTrimSpaceKeepsOcc t _ hne hclean hrep
  exact htrim.trans (List.prefix_append _ ['\n']).isInfix

/-- Witness for C7: the concrete token "t" for "carol" from the empty
state. -/
theorem C7_witness :
    CheckTokenValidation
      (RemoveTokenValidation
        ((SetTokenValidation ((SetTokenValidation st0 "carol" ['t']).1)
          "carol" ['t']).1) "carol" ['t']).1
      "carol" ['t'] = true :=
  C7_double_add_single_remove st0 "carol" ['t'] (by decide) (by decide)

theorem div30_add_90 (a : Nat) : (a + 90) / 30 = a / 30 + 3 := by
  have h : a + 90 = a + 3 * 30 := by norm_num
  rw [h, Nat.add_mul_div_right a 3 (by norm_num)]

theorem mem_totpCounters (w : Nat) (t0 : Int) (k : Int) :
    k ∈ totpCounters w t0 ↔ ∃ i : Nat, i < 2 * w + 1 ∧ t0 - (w : Int) + i = k := by
  unfold totpCounters
  rw [List.mem_map]
  constructor
  · rintro ⟨i, hi, hk⟩
    exact ⟨i, List.mem_range.mp hi, hk⟩
  · rintro ⟨i, hi, hk⟩
    exact ⟨i, List.mem_range.mpr hi, hk⟩

/-- C9: with the window size 3 and 30-second step that `OTPVerify`
configures, the verifier accepts the code generated at any timestamp
within ±90 seconds of now (its counter then lies within 3 steps of the
current counter); and a code generated at a counter outside the 7-counter
window is rejected whenever it does not collide with any in-window code
(the 6-digit codes of distinct counters can collide, so collision-freedom
of `codeAt` on the relevant counters is a hypothesis). The verifier
itself (`dgoogauth.Authenticate`) is modelled from the spec. -/
theorem C9_otp_window (codeAt : Int → Nat) (now ts : Nat) :
    (now ≤ ts + 90 → ts ≤ now + 90 →
      otpAuthenticate codeAt 3 now (codeAtTime codeAt ts) = true) ∧
    ((((ts / 30 : Nat) : Int)) ∉ totpCounters 3 ((now / 30 : Nat) : Int) →
      (∀ k ∈ totpCounters 3 ((now / 30 : Nat) : Int),
        codeAt k = codeAt ((ts / 30 : Nat) : Int) →
        k = ((ts / 30 : Nat) : Int)) →
      otpAuthenticate codeAt 3 now (codeAtTime codeAt ts) = false) := by
  constructor
  · intro h1 h2
    have hu : ts / 30 ≤ now / 30 + 3 := by
      have := Nat.div_le_div_right (c := 30) h2
      rwa [div30_add_90 now] at this
    have hl : now / 30 ≤ ts / 30 + 3 := by
      have := Nat.div_le_div_right (c := 30) h1
      rwa [div30_add_90 ts] at this
    unfold otpAuthenticate codeAtTime
    rw [List.any_eq_true]
    refine ⟨((ts / 30 : Nat) : Int), ?_, by simp⟩
    rw [mem_totpCounters]
    refine ⟨ts / 30 + 3 - now / 30, by omega, ?_⟩
    have hcast : ((ts / 30 + 3 - now / 30 : Nat) : Int) =
        (ts / 30 : Nat) + 3 - (now / 30 : Nat) := by
      omega
    rw [hcast]
    omega
  · intro hout hinj
    unfold otpAuthenticate codeAtTime
    rw [List.any_eq_false]
    intro k hk
    intro hbeq
    have heq : codeAt k = codeAt ((ts / 30 : Nat) : Int) := by
      simpa using hbeq
    exact hout (hinj k hk heq ▸ hk)

/-- Witness for C9 with the injective-on-the-relevant-counters code
function `natAbs`: the code of a timestamp 60 seconds ahead is accepted,
the code of one 3000 seconds ahead is rejected. -/
theorem C9_witness :
    otpAuthenticate (fun k => k.natAbs) 3 3000
      (codeAtTime (fun k => k.natAbs) 3060) = true ∧
    otpAuthenticate (fun k => k.natAbs) 3 3000
      (codeAtTime (fun k => k.natAbs) 6000) = false :=
  ⟨(C9_otp_window (fun k => k.natAbs) 3000 3060).1 (by decide) (by decide),
   (C9_otp_window (fun k => k.natAbs) 3000 6000).2 (by decide) (by decide)⟩

end NsApiServer
